import Mathlib

/-!
Verification of the MergeMaster orchestration core against its specification.

The definitions below are a shallow embedding of the TypeScript source
(`src/agent_graph.ts` and the command-execution module).  Conversation
messages are modelled by `Msg`, the open-file cache by an
insertion-ordered association list (mirroring a JS `Map`), and each
operation is translated function-by-function from the source.
-/

namespace MergeMaster

/-- A typed content block of a conversation message, mirroring the
dynamic `{type: 'text' | 'tool_use' | 'tool_result', ...}` objects of the
source.  The `input` of a `toolUse` block stands for the string values of
the JS input object (only their total character count is ever observed,
by the token estimator). -/
inductive Block where
  | text (s : String)
  | toolUse (id name input : String)
  | toolResult (toolUseId content : String) (isError : Bool)
deriving DecidableEq, Inhabited, Repr

/-- Message content: either a plain string or an array of blocks, as in
the source's internal message representation. -/
inductive MsgContent where
  | str (s : String)
  | blocks (bs : List Block)
deriving DecidableEq, Inhabited, Repr

/-- A conversation message (`role` plus `content`).  The internal
representation handled by `pruneMessages` never carries the
OpenAI-format `tool_calls` field (assistant messages are normalized to
`tool_use` blocks first), so that field is not modelled. -/
structure Msg where
  role : String
  content : MsgContent
deriving DecidableEq, Inhabited, Repr

/-- `MAX_PROMPT_TOKEN_BUDGET` from the source. -/
def MAX_PROMPT_TOKEN_BUDGET : Nat := 180000

/-- `truncateString(input, charLimit)`: truncate and append the
explicit truncation marker. -/
def truncateString (input : String) (charLimit : Nat) : String :=
  if input.length ≤ charLimit then input
  else
    (input.take charLimit) ++ "\n… (truncated " ++
      toString (input.length - charLimit) ++ " more characters)"

/-- Character count contributed by one block to the token estimate.
`collectStrings` in the source flattens every string value of the block
object, which includes the `type` tag itself (`"text"` = 4 chars,
`"tool_use"` = 8, `"tool_result"` = 11); booleans contribute nothing. -/
def blockChars : Block → Nat
  | .text s => 4 + s.length
  | .toolUse id name input => 8 + id.length + name.length + input.length
  | .toolResult toolUseId content _ => 11 + toolUseId.length + content.length

/-- Characters contributed by a message's `content` value. -/
def contentChars : MsgContent → Nat
  | .str s => s.length
  | .blocks bs => (bs.map blockChars).sum

/-- `estimateTokensFromMessage`: `ceil(totalChars / 4) + 6`, where
`totalChars` sums every string value in the message object (the `role`
string included). -/
def estimateTokensFromMessage (message : Msg) : Nat :=
  (message.role.length + contentChars message.content + 3) / 4 + 6

/-- `block.type === 'tool_result'`. -/
def isToolResultBlock : Block → Bool
  | .toolResult .. => true
  | _ => false

/-- `block.type === 'tool_use'`. -/
def isToolUseBlock : Block → Bool
  | .toolUse .. => true
  | _ => false

/-- `block.type === 'text'`. -/
def isTextBlock : Block → Bool
  | .text _ => true
  | _ => false

/-- `hasToolResults`: content is an array holding a `tool_result` block. -/
def hasToolResultsB (m : Msg) : Bool :=
  match m.content with
  | .str _ => false
  | .blocks bs => bs.any isToolResultBlock

/-- `hasToolUses`: content is an array holding a `tool_use` block. -/
def hasToolUsesB (m : Msg) : Bool :=
  match m.content with
  | .str _ => false
  | .blocks bs => bs.any isToolUseBlock

/-- One `tool_result` block's contribution to an archival summary:
`id: preview` when the id is truthy (non-empty), else just the preview. -/
def summarizeToolResultBlock (b : Block) : String :=
  match b with
  | .toolResult toolUseId content _ =>
      if toolUseId ≠ "" then toolUseId ++ ": " ++ truncateString content 200
      else truncateString content 200
  | _ => ""

/-- `summarizeMessage`: one-line archival summary, or `none` (JS `null`)
when the message has neither tool results, text blocks, nor string
content. -/
def summarizeMessage (message : Msg) : Option String :=
  let role := if message.role = "" then "unknown" else message.role
  match message.content with
  | .blocks bs =>
    let toolBlocks := bs.filter isToolResultBlock
    if 0 < toolBlocks.length then
      some ("Tool results (" ++ toString toolBlocks.length ++ "): " ++
        String.intercalate " | " (toolBlocks.map summarizeToolResultBlock))
    else
      let textBlocks := bs.filter isTextBlock
      if 0 < textBlocks.length then
        some (role ++ ": " ++
          truncateString (String.intercalate "\n"
            (textBlocks.map fun b => match b with | .text s => s | _ => "")) 200)
      else none
  | .str s => some (role ++ ": " ++ truncateString s 200)

/-- The backward scan of `pruneMessages` (the `for` loop from index
`messages.length - 1` down to `1`), phrased over the reversed tail of
the history: the loop's `messages[i]` is the current list head and
`messages[i - 1]` is the next element (`i > 1` is exactly "the next
element is still inside the walked range").  `selected` grows at its
end exactly as the JS `push` does, and the membership test mirrors
`selected.includes(messages[i - 1])` (a reference comparison in JS;
structural equality here, which agrees on histories of pairwise
distinct messages). -/
def scanLoop (maxMessages maxTokens : Nat) :
    List Msg → Nat → List Msg → List String → List Msg × List String
  | [], _, selected, archived => (selected, archived)
  | msg :: older, usedTokens, selected, archived =>
    let tokens := estimateTokensFromMessage msg
    let needsPreviousMessage := hasToolResultsB msg && !older.isEmpty
    if decide (maxMessages - 1 ≤ selected.length) && !needsPreviousMessage then
      scanLoop maxMessages maxTokens older usedTokens selected
        (archived ++ (summarizeMessage msg).toList)
    else if decide (maxTokens < usedTokens + tokens) && !needsPreviousMessage then
      scanLoop maxMessages maxTokens older usedTokens selected
        (archived ++ (summarizeMessage msg).toList)
    else
      let selected1 := selected ++ [msg]
      let usedTokens1 := usedTokens + tokens
      match older with
      | [] => scanLoop maxMessages maxTokens [] usedTokens1 selected1 archived
      | prevMsg :: older2 =>
        if needsPreviousMessage && !(selected1.contains prevMsg) then
          scanLoop maxMessages maxTokens older2
            (usedTokens1 + estimateTokensFromMessage prevMsg)
            (selected1 ++ [prevMsg]) archived
        else
          scanLoop maxMessages maxTokens (prevMsg :: older2) usedTokens1 selected1 archived

/-- Strip every `tool_result` block from a message (the in-place
`msg.content.filter` of the repair pass). -/
def stripToolResults (m : Msg) : Msg :=
  match m.content with
  | .str s => { m with content := .str s }
  | .blocks bs => { m with content := .blocks (bs.filter fun b => !isToolResultBlock b) }

/-- Whether a message's content is the empty block array (the
`msg.content.length === 0` check after stripping). -/
def contentEmptied (m : Msg) : Bool :=
  match m.content with
  | .blocks [] => true
  | _ => false

/-- The forward repair pass of `pruneMessages`, processed left to right
with the previous retained message as accumulator: a message whose
`tool_result` blocks are orphaned (predecessor lacks `tool_use` blocks)
has them stripped, and is dropped entirely if that empties it. -/
def repairAux : Msg → List Msg → List Msg
  | _, [] => []
  | prevMsg, msg :: rest =>
    if hasToolResultsB msg && !hasToolUsesB prevMsg then
      let stripped := stripToolResults msg
      if contentEmptied stripped then repairAux prevMsg rest
      else stripped :: repairAux stripped rest
    else msg :: repairAux msg rest

/-- The repair loop starts at index 1, so the head of the list is never
examined (nor removed). -/
def repairPass : List Msg → List Msg
  | [] => []
  | m :: rest => m :: repairAux m rest

/-- JS `array.slice(-k)`: the last `k` elements — except that
`slice(-0)` is `slice(0)`, the whole array. -/
def sliceLast (l : List α) (k : Nat) : List α :=
  if k = 0 then l else l.drop (l.length - k)

/-- `pruneMessages(messages, maxMessages, maxTokens)`: returns the
retained window and the archival summaries, translated clause by clause
from the source (first-message budget check, backward scan, length trim
from the front, forward repair pass, final length check). -/
def pruneMessages (messages : List Msg) (maxMessages maxTokens : Nat) :
    List Msg × List String :=
  match messages with
  | [] => ([], [])
  | firstMessage :: _ =>
    let usedTokens := estimateTokensFromMessage firstMessage
    if maxTokens < usedTokens then ([firstMessage], [])
    else
      let scanned := scanLoop maxMessages maxTokens
        ((messages.drop 1).reverse) usedTokens [] []
      let pruned0 := firstMessage :: scanned.1.reverse
      let archived1 :=
        if maxMessages < pruned0.length then
          scanned.2 ++ (pruned0.take (pruned0.length - maxMessages)).filterMap summarizeMessage
        else scanned.2
      let pruned1 :=
        if maxMessages < pruned0.length then sliceLast pruned0 maxMessages else pruned0
      let pruned2 := repairPass pruned1
      if maxMessages < pruned2.length then (sliceLast pruned2 maxMessages, archived1)
      else (pruned2, archived1)

/-- `FileContext`: a cached open file with its bounded undo stack
(`previousVersions`, newest at the end — JS `push`/`pop` act on the
array's end, `shift` drops the front) and access timestamps. -/
structure FileContext where
  path : String
  content : String
  previousVersions : List String
  lastRead : Nat
  lastModified : Nat
deriving DecidableEq, Inhabited, Repr

/-- The open-file cache, modelling a JS `Map<string, FileContext>` as an
association list in insertion order (a `Map` iterates in insertion
order; keys are unique). -/
abbrev FileCache := List (String × FileContext)

/-- `Map.get`. -/
def mapGet? (cache : FileCache) (key : String) : Option FileContext :=
  (cache.find? fun e => e.1 = key).map Prod.snd

/-- `Map.set`: update in place (preserving position) when the key is
present, else append at the end. -/
def mapSet (cache : FileCache) (key : String) (value : FileContext) : FileCache :=
  if cache.any (fun e => e.1 = key) then
    cache.map fun e => if e.1 = key then (key, value) else e
  else cache ++ [(key, value)]

/-- `Map.delete`. -/
def mapDelete (cache : FileCache) (key : String) : FileCache :=
  cache.filter fun e => ¬ e.1 = key

/-- The eviction sort's comparator: ascending `lastRead` (the source's
numeric comparator `(a[1].lastRead || 0) - (b[1].lastRead || 0)`). -/
def lastReadLE (a b : String × FileContext) : Bool :=
  decide (a.2.lastRead ≤ b.2.lastRead)

/-- `evictOldCacheEntries(cache, maxSize)`: when the cache exceeds
`maxSize`, stably sort its entries by `lastRead` ascending and delete
the first `size - maxSize` of them.  `List.mergeSort` is a stable sort,
matching the source's `Array.prototype.sort`. -/
def evictOldCacheEntries (cache : FileCache) (maxSize : Nat) : FileCache :=
  if cache.length ≤ maxSize then cache
  else
    let entries := cache.mergeSort lastReadLE
    let toRemove := cache.length - maxSize
    (entries.take toRemove).foldl (fun acc e => mapDelete acc e.1) cache

/-- The `read_file` branch of the context-tracking section of
`executeTools`: refresh the cache entry with the disk content, preserve
any existing undo history, stamp both timestamps with `now`, then
evict down to 15 entries. -/
def trackRead (openFiles : FileCache) (filePath result : String) (now : Nat) : FileCache :=
  let existing := mapGet? openFiles filePath
  evictOldCacheEntries
    (mapSet openFiles filePath
      { path := filePath
        content := result
        previousVersions := (existing.map FileContext.previousVersions).getD []
        lastRead := now
        lastModified := now })
    15

/-- The `write_file` branch of the context-tracking section of
`executeTools`: if an entry exists, push its current content onto the
undo stack — but only when that content is non-empty, mirroring the
source's JS-truthiness test `if (existing.content)` — capping the stack
at 10 by dropping the oldest; otherwise create a fresh entry with an
empty undo stack.  Evicts down to 15 entries afterwards. -/
def trackWrite (openFiles : FileCache) (filePath content : String) (now : Nat) : FileCache :=
  match mapGet? openFiles filePath with
  | some existing =>
      let existing1 :=
        if existing.content ≠ "" then
          let pv := existing.previousVersions ++ [existing.content]
          { existing with previousVersions := if 10 < pv.length then pv.tail else pv }
        else existing
      let existing2 :=
        { existing1 with content := content, lastModified := now, lastRead := now }
      evictOldCacheEntries (mapSet openFiles filePath existing2) 15
  | none =>
      evictOldCacheEntries
        (mapSet openFiles filePath
          { path := filePath, content := content, previousVersions := []
            lastRead := now, lastModified := now })
        15

/-- Result record of `undoLastChange` (`{success, message, path?}`). -/
structure UndoOutcome where
  success : Bool
  message : String
  path : Option String
deriving DecidableEq, Inhabited, Repr

/-- `undoLastChange(filePath?)` on the state held in the checkpoint:
returns the outcome record, the updated cache, and the disk write it
performs (path and restored content), if any.  The environment-failure
branches of the source (missing checkpoint store or tuple) are outside
this state model; every in-model failure is a returned
`{success := false}`, never an exception. -/
def undoLastChange (openFiles : FileCache) (recentChanges : List (String × Nat))
    (filePath : Option String) : UndoOutcome × FileCache × Option (String × String) :=
  let target? :=
    match filePath with
    | some p => some p
    | none => (recentChanges.getLast?).map Prod.fst
  match target? with
  | none => (⟨false, "No recent changes to undo", none⟩, openFiles, none)
  | some targetPath =>
    match mapGet? openFiles targetPath with
    | none =>
        (⟨false, "No previous version available for " ++ targetPath, none⟩, openFiles, none)
    | some fileContext =>
      match fileContext.previousVersions.getLast? with
      | none =>
          (⟨false, "No previous version available for " ++ targetPath, none⟩, openFiles, none)
      | some previousContent =>
        let fileContext1 :=
          { fileContext with
              previousVersions := fileContext.previousVersions.dropLast
              content := previousContent }
        (⟨true, "Reverted " ++ targetPath ++ " to previous version", some targetPath⟩,
          mapSet openFiles targetPath fileContext1, some (targetPath, previousContent))

/-- `CommandApproval`: the original request held by a pending entry. -/
structure CommandApproval where
  command : String
  cwd : Option String
  timeout : Option Nat
deriving DecidableEq, Inhabited, Repr

/-- The `pendingCommands` map, keyed by tool-use id (insertion order). -/
abbrev PendingCommands := List (String × CommandApproval)

/-- `waitForCommandCompletion(toolUseId, approval)`: throws (modelled by
`Except.error`) on a missing id or a duplicate registration; otherwise
registers the pending entry. -/
def waitForCommandCompletion (pendingCommands : PendingCommands)
    (toolUseId : String) (approval : CommandApproval) : Except String PendingCommands :=
  if toolUseId = "" then
    .error "toolUseId is required to track command approvals"
  else if pendingCommands.any (fun e => e.1 = toolUseId) then
    .error ("Command approval already pending for " ++ toolUseId)
  else
    .ok (pendingCommands ++ [(toolUseId, approval)])

/-- `resolvePendingCommand(toolUseId, result)`: `false` and no change
when no entry is pending; otherwise delete the entry, deliver the
result, and report `true`. -/
def resolvePendingCommand (pendingCommands : PendingCommands)
    (toolUseId : String) : Bool × PendingCommands :=
  match pendingCommands.find? (fun e => e.1 = toolUseId) with
  | none => (false, pendingCommands)
  | some _ => (true, pendingCommands.filter fun e => ¬ e.1 = toolUseId)

/-- `rejectPendingCommand(toolUseId, error)`: same map discipline as
resolution, delivering a rejection instead. -/
def rejectPendingCommand (pendingCommands : PendingCommands)
    (toolUseId : String) : Bool × PendingCommands :=
  match pendingCommands.find? (fun e => e.1 = toolUseId) with
  | none => (false, pendingCommands)
  | some _ => (true, pendingCommands.filter fun e => ¬ e.1 = toolUseId)

/-- One entry of the `recentCommands` ring buffer. -/
structure RecentCommand where
  command : String
  output : Option String
  timestamp : Nat
deriving DecidableEq, Inhabited, Repr

/-- The completion phrases scanned by `shouldContinue` (the branch is
effectively dead: it returns "continue" either way). -/
def completionPhrases : List String :=
  ["completed", "finished", "done", "all set", "ready to use",
   "that's all", "that is all"]

/-- `shouldContinue`: the Deciding node.  Takes the iteration counter,
whether any tool uses were produced, the assistant's text blocks, and
the external continue/stop gate's answer (the value `waitForContinue()`
resolves to); returns the edge label (`"continue"` or `"end"`) and the
updated iteration counter.  The hard 200-step `recursionLimit` lives in
the graph configuration and plays no part in this function. -/
def shouldContinue (iterationCount : Nat) (toolUsesCount : Nat)
    (textBlocks : List String) (continueAnswer : Bool) : String × Nat :=
  if toolUsesCount = 0 then ("end", iterationCount)
  else if 25 ≤ iterationCount then
    if !continueAnswer then ("end", iterationCount)
    else ("continue", 0)
  else
    let lastText := ((textBlocks.getLast?).getD "").toLower
    if completionPhrases.any (fun p => decide (p.toList <:+: lastText.toList)) then
      ("continue", iterationCount)
    else
      ("continue", iterationCount)

/-- One tool invocation as seen by the context-tracking part of
`executeTools`: a file read (with the content the disk returned), a file
write, or an (approved) command execution with its captured output. -/
inductive ToolCall where
  | readFile (path diskContent : String)
  | writeFile (path content : String)
  | execCommand (command stdout stderr : String)
deriving DecidableEq, Inhabited, Repr

/-- The side-effect state threaded through `executeTools`. -/
structure TrackState where
  openFiles : FileCache
  recentChanges : List (String × Nat)
  recentReads : List (String × Nat)
  recentCommands : List RecentCommand
  iterationCount : Nat
deriving Inhabited, Repr

/-- The per-tool context tracking of `executeTools` (lines 1542-1615 of
the source). -/
def trackToolCall (st : TrackState) (call : ToolCall) (now : Nat) : TrackState :=
  match call with
  | .readFile path diskContent =>
      { st with
          recentReads := st.recentReads ++ [(path, now)]
          openFiles := trackRead st.openFiles path diskContent now }
  | .writeFile path content =>
      { st with
          recentChanges := st.recentChanges ++ [(path, now)]
          openFiles := trackWrite st.openFiles path content now }
  | .execCommand command stdout stderr =>
      let commandOutput := stdout ++ (if stderr ≠ "" then "\n" ++ stderr else "")
      if command ≠ "" then
        { st with
            recentCommands := st.recentCommands ++
              [⟨command,
                if commandOutput ≠ "" then some (commandOutput.take 500) else none,
                now⟩] }
      else st

/-- `executeTools` state update: early return when no tools were
requested; otherwise track every call in order, trim the ring buffers
(`slice(-20)` / `slice(-10)`), and increment the iteration counter by
exactly one regardless of how many tools ran. -/
def executeToolsTrack (st : TrackState) (toolUses : List ToolCall) (now : Nat) : TrackState :=
  if toolUses.isEmpty then st
  else
    let st1 := toolUses.foldl (fun s c => trackToolCall s c now) st
    { st1 with
        recentChanges := sliceLast st1.recentChanges 20
        recentReads := sliceLast st1.recentReads 20
        recentCommands := sliceLast st1.recentCommands 10
        iterationCount := st.iterationCount + 1 }

/-- One historical-summary entry. -/
structure HistEntry where
  timestamp : Nat
  summary : String
deriving DecidableEq, Inhabited, Repr

/-- The slice of `AgentState` read by `getContextSummary`. -/
structure AgentStateModel where
  openFiles : FileCache
  recentChanges : List (String × Nat)
  recentReads : List (String × Nat)
  recentCommands : List RecentCommand
  workingSet : List String
  historicalSummaries : List HistEntry
deriving Inhabited, Repr

/-- `getContextSummary(state)`, parameterized by the artifact-detection
collaborator `extractArtifacts(command, output?)` (a regex-based string
scanner in the source, orthogonal to the structure of the summary).
Note that the source computes `recentReads.slice(-5)` and then never
uses it — the summary has no section for read paths, and the
empty-signal early return does not consult `recentReads` either.  The
`_recentReads` binding below mirrors that dead local. -/
def getContextSummary (extractArtifacts : String → Option String → List String)
    (state : AgentStateModel) (nowMs : Nat) : String :=
  let openFilesList := state.openFiles.map Prod.fst
  let recentChanges := sliceLast state.recentChanges 5
  let _recentReads := sliceLast state.recentReads 5
  let recentCommands := sliceLast state.recentCommands 3
  let historical := sliceLast state.historicalSummaries 5
  if openFilesList.isEmpty && recentChanges.isEmpty && recentCommands.isEmpty
      && historical.isEmpty then ""
  else
    let s0 := "[Context] "
    let s1 :=
      if 0 < openFilesList.length then
        s0 ++ "Working with files: " ++ String.intercalate ", " openFilesList ++ ". "
      else s0
    let s2 :=
      if 0 < recentChanges.length then
        s1 ++ "Recent changes: " ++
          String.intercalate ", " (recentChanges.map Prod.fst) ++ ". "
      else s1
    let s3 :=
      if 0 < recentCommands.length then
        let commandSummaries := recentCommands.map fun cmd =>
          let artifacts := extractArtifacts cmd.command cmd.output
          let base := "Ran: " ++ cmd.command
          if 0 < artifacts.length then
            base ++ " (created: " ++ String.intercalate ", " artifacts ++ ")"
          else base
        s2 ++ "Recent commands: " ++ String.intercalate "; " commandSummaries ++ ". "
      else s2
    let s4 :=
      if 0 < state.workingSet.length then
        s3 ++ "Focus: " ++ String.intercalate ", " state.workingSet ++ ". "
      else s3
    let s5 :=
      if 0 < historical.length then
        let historySnippets := historical.map fun entry =>
          let elapsed := nowMs - entry.timestamp
          let minutes := max 1 ((elapsed + 30000) / 60000)
          toString minutes ++ "m ago: " ++ entry.summary
        s4 ++ "Earlier work: " ++ String.intercalate " | " historySnippets ++ ". "
      else s4
    s5.trim

/-! ## Properties of the pruning pipeline -/

/-- The adjacency relation the repair pass actually enforces between
consecutive retained messages: a message holding `tool_result` blocks
must follow a message holding at least one `tool_use` block. -/
def adjacencyOk (a b : Msg) : Prop :=
  hasToolResultsB b = true → hasToolUsesB a = true

/-- The spec's stricter reading of the invariant (claim C1): every
`tool_result` block's `tool_use_id` must be matched by the id of a
`tool_use` block of the immediately preceding retained message, and a
message with `tool_result` blocks may not sit first. -/
def msgToolResultIds (m : Msg) : List String :=
  match m.content with
  | .str _ => []
  | .blocks bs => bs.filterMap fun b =>
      match b with | .toolResult tid _ _ => some tid | _ => none

/-- Ids of the `tool_use` blocks of a message. -/
def msgToolUseIds (m : Msg) : List String :=
  match m.content with
  | .str _ => []
  | .blocks bs => bs.filterMap fun b =>
      match b with | .toolUse id _ _ => some id | _ => none

/-- Auxiliary walk for `specMatchingAdjacency`, carrying the previous
retained message. -/
def specMatchingAdjacencyAux : Option Msg → List Msg → Bool
  | _, [] => true
  | prev?, m :: rest =>
      ((msgToolResultIds m).all fun tid =>
        match prev? with
        | none => false
        | some p => (msgToolUseIds p).contains tid) &&
      specMatchingAdjacencyAux (some m) rest

/-- Claim C1 as stated: matching-id adjacency over a retained history. -/
def specMatchingAdjacency (l : List Msg) : Bool :=
  specMatchingAdjacencyAux none l

lemma hasToolResultsB_stripToolResults (m : Msg) :
    hasToolResultsB (stripToolResults m) = false := by
  obtain ⟨role, content⟩ := m
  cases content with
  | str s => rfl
  | blocks bs =>
    simp only [stripToolResults, hasToolResultsB]
    rw [List.any_eq_false]
    intro b hb
    simp only [List.mem_filter] at hb
    simpa using hb.2

lemma repairAux_spec (l : List Msg) : ∀ prev : Msg,
    List.Chain' adjacencyOk (repairAux prev l) ∧
      ∀ b, (repairAux prev l).head? = some b → adjacencyOk prev b := by
  induction l with
  | nil => intro prev; simp [repairAux]
  | cons m rest ih =>
    intro prev
    by_cases hc : (hasToolResultsB m && !hasToolUsesB prev) = true
    · by_cases he : contentEmptied (stripToolResults m) = true
      · simpa [repairAux, hc, he] using ih prev
      · have hih := ih (stripToolResults m)
        constructor
        · rw [repairAux, if_pos hc, if_neg he, List.chain'_cons']
          exact ⟨fun y hy => hih.2 y hy, hih.1⟩
        · intro b hb
          rw [repairAux, if_pos hc, if_neg he] at hb
          simp only [List.head?_cons, Option.some.injEq] at hb
          subst hb
          intro habs
          rw [hasToolResultsB_stripToolResults] at habs
          exact absurd habs (by simp)
    · have hih := ih m
      constructor
      · rw [repairAux, if_neg hc, List.chain'_cons']
        exact ⟨fun y hy => hih.2 y hy, hih.1⟩
      · intro b hb
        rw [repairAux, if_neg hc] at hb
        simp only [List.head?_cons, Option.some.injEq] at hb
        subst hb
        intro htr
        simp only [Bool.and_eq_true, Bool.not_eq_true', not_and] at hc
        have := hc htr
        simp only [Bool.not_eq_false] at this
        exact this

lemma repairPass_chain' (l : List Msg) :
    List.Chain' adjacencyOk (repairPass l) := by
  cases l with
  | nil => simp [repairPass]
  | cons m rest =>
    rw [repairPass, List.chain'_cons']
    exact ⟨fun y hy => (repairAux_spec rest m).2 y hy, (repairAux_spec rest m).1⟩

lemma chain'_sliceLast {R : Msg → Msg → Prop} {l : List Msg} (h : List.Chain' R l)
    (k : Nat) : List.Chain' R (sliceLast l k) := by
  unfold sliceLast
  split
  · exact h
  · exact h.drop _

/-- C1 (amended): in every list returned by `pruneMessages`, any
retained message other than the first that carries a `tool_result`
block is immediately preceded by a retained message carrying at least
one `tool_use` block.  (The repair pass checks block presence, not id
equality, and never inspects the head of the list.) -/
lemma chain'_finalCheck (l1 : List Msg) (arch : List String) (maxM : Nat) :
    List.Chain' adjacencyOk
      ((if maxM < (repairPass l1).length then (sliceLast (repairPass l1) maxM, arch)
        else (repairPass l1, arch)).1) := by
  split
  · exact chain'_sliceLast (repairPass_chain' l1) maxM
  · exact repairPass_chain' l1

theorem pruneMessages_adjacency_presence (messages : List Msg) (maxMessages maxTokens : Nat) :
    List.Chain' adjacencyOk (pruneMessages messages maxMessages maxTokens).1 := by
  cases messages with
  | nil => simp [pruneMessages]
  | cons firstMessage rest =>
    simp only [pruneMessages]
    split
    · simp
    · exact chain'_finalCheck _ _ _

/-! ## Concrete histories used as counterexamples and scenario checks -/

/-- A seed user message. -/
def exFirst : Msg := ⟨"user", .str "hello"⟩

/-- An assistant message holding one `tool_use` block with id `A`. -/
def exToolUse : Msg := ⟨"assistant", .blocks [.toolUse "A" "read_file" "x"]⟩

/-- A user message holding the `tool_result` for id `A`. -/
def exToolResult : Msg := ⟨"user", .blocks [.toolResult "A" "ok" false]⟩

/-- A `tool_result` whose id `B` matches no `tool_use` anywhere. -/
def exToolResultB : Msg := ⟨"user", .blocks [.toolResult "B" "ok" false]⟩

/-- `n` distinct plain text messages. -/
def exPlainMsgs (n : Nat) : List Msg :=
  (List.range n).map fun k => ⟨"user", .str (toString k)⟩

/-- 51 messages: seed, a ToolUse/ToolResult pair, then 48 plain
messages, so the pair straddles the 50-message ceiling. -/
def exStraddle : List Msg := [exFirst, exToolUse, exToolResult] ++ exPlainMsgs 48

/-- 52 messages: as `exStraddle` with one more plain message, so the
forced pair overflows the ceiling by two and the trim drops both the
seed and the `tool_use` partner. -/
def exStraddleOrphan : List Msg := [exFirst, exToolUse, exToolResult] ++ exPlainMsgs 49

/-- C1 counterexample: the claimed invariant (matching ids, no
unprotected head) fails on the code.  A `tool_result` with id `B`
preceded by a `tool_use` with id `A` passes the repair pass untouched;
and after the forced pair overflows the ceiling, the front trim leaves
an orphaned `tool_result` message at the head of the returned list. -/
theorem pruneMessages_matching_adjacency_cex :
    (pruneMessages [exFirst, exToolUse, exToolResultB] 50 MAX_PROMPT_TOKEN_BUDGET).1
        = [exFirst, exToolUse, exToolResultB] ∧
    specMatchingAdjacency
        (pruneMessages [exFirst, exToolUse, exToolResultB] 50 MAX_PROMPT_TOKEN_BUDGET).1
      = false ∧
    specMatchingAdjacency
        (pruneMessages exStraddleOrphan 50 MAX_PROMPT_TOKEN_BUDGET).1 = false ∧
    hasToolResultsB
        ((pruneMessages exStraddleOrphan 50 MAX_PROMPT_TOKEN_BUDGET).1.headD default)
      = true := by
  decide

/-- C2 counterexample: with ceiling 2 on a three-message history whose
newest message drags in its `tool_use` partner, the front trim drops
`message[0]` even though it fits the token budget alone. -/
theorem pruneMessages_drops_first_cex :
    estimateTokensFromMessage exFirst ≤ MAX_PROMPT_TOKEN_BUDGET ∧
    (pruneMessages [exFirst, exToolUse, exToolResult] 2 MAX_PROMPT_TOKEN_BUDGET).1
        = [exToolUse, exToolResult] ∧
    exFirst ∉ (pruneMessages [exFirst, exToolUse, exToolResult] 2 MAX_PROMPT_TOKEN_BUDGET).1 := by
  decide

/-- C3 counterexample: in the canonical straddling scenario both pair
members are retained, but the returned list has exactly 50 messages,
never 51 — the trim drops `message[0]` instead of exceeding the
ceiling. -/
theorem pruneMessages_straddle_not51_cex :
    exToolUse ∈ (pruneMessages exStraddle 50 MAX_PROMPT_TOKEN_BUDGET).1 ∧
    exToolResult ∈ (pruneMessages exStraddle 50 MAX_PROMPT_TOKEN_BUDGET).1 ∧
    ¬ (pruneMessages exStraddle 50 MAX_PROMPT_TOKEN_BUDGET).1.length = 51 := by
  decide

/-- C3 (amended): when a ToolUse/ToolResult pair straddles the
50-message ceiling, the backward scan keeps both pair members, and the
final trim then drops the oldest kept message — `message[0]`, which is
archived as a summary — so the returned list has exactly 50 messages
including the adjacent pair. -/
theorem pruneMessages_straddle_trims_to_ceiling :
    (pruneMessages exStraddle 50 MAX_PROMPT_TOKEN_BUDGET).1.length = 50 ∧
    exToolUse ∈ (pruneMessages exStraddle 50 MAX_PROMPT_TOKEN_BUDGET).1 ∧
    exToolResult ∈ (pruneMessages exStraddle 50 MAX_PROMPT_TOKEN_BUDGET).1 ∧
    exFirst ∉ (pruneMessages exStraddle 50 MAX_PROMPT_TOKEN_BUDGET).1 ∧
    "user: hello" ∈ (pruneMessages exStraddle 50 MAX_PROMPT_TOKEN_BUDGET).2 := by
  decide

lemma sliceLast_length_le {α : Type} (l : List α) {k : Nat} (hk : k ≠ 0) :
    (sliceLast l k).length ≤ k := by
  unfold sliceLast
  rw [if_neg hk]
  simp only [List.length_drop]
  omega

lemma length_finalCheck (l1 : List Msg) (arch : List String) {maxM : Nat} (hm : 1 ≤ maxM) :
    ((if maxM < (repairPass l1).length then (sliceLast (repairPass l1) maxM, arch)
      else (repairPass l1, arch)).1).length ≤ maxM := by
  split
  · exact sliceLast_length_le _ (by omega)
  · next h => exact Nat.le_of_not_lt h

/-- C4: for a positive message ceiling the returned window never
exceeds it — the final length checks slice the result down before
returning. -/
theorem pruneMessages_length_le (messages : List Msg) (maxMessages maxTokens : Nat)
    (hne : messages ≠ []) (hm : 1 ≤ maxMessages) :
    (pruneMessages messages maxMessages maxTokens).1.length ≤ maxMessages := by
  cases messages with
  | nil => exact absurd rfl hne
  | cons firstMessage rest =>
    simp only [pruneMessages]
    split
    · simpa using hm
    · exact length_finalCheck _ _ hm

/-- Witness for C4 at a concrete input. -/
theorem pruneMessages_length_le_witness :
    ([exFirst, exToolUse, exToolResult] : List Msg) ≠ [] ∧ 1 ≤ 2 ∧
    (pruneMessages [exFirst, exToolUse, exToolResult] 2 MAX_PROMPT_TOKEN_BUDGET).1.length ≤ 2 :=
  ⟨by decide, by decide,
    pruneMessages_length_le [exFirst, exToolUse, exToolResult] 2 MAX_PROMPT_TOKEN_BUDGET
      (by decide) (by decide)⟩

/-! ## Context summary (C10) -/

/-- An agent state whose only signal is a non-empty recent-reads list. -/
def exReadsOnlyState : AgentStateModel :=
  { openFiles := [], recentChanges := [], recentReads := [("a.txt", 0)],
    recentCommands := [], workingSet := [], historicalSummaries := [] }

/-- C10: the synthesized context message never lists read paths — the
source computes the last five `recentReads` and then drops them, and
the empty-signal early return ignores them too, so a state whose only
signal is a non-empty recent-reads list produces the empty summary (for
every artifact extractor and every clock value). -/
theorem getContextSummary_omits_recent_reads :
    ∀ (extractArtifacts : String → Option String → List String) (nowMs : Nat),
      getContextSummary extractArtifacts exReadsOnlyState nowMs = "" := by
  intro extractArtifacts nowMs
  rfl

lemma scanLoop_fst_length (maxM maxT : Nat) :
    ∀ (n : Nat) (l : List Msg), l.length ≤ n → ∀ (used : Nat) (sel : List Msg) (arch : List String),
      ((scanLoop maxM maxT l used sel arch).1).length ≤ sel.length + l.length := by
  intro n
  induction n with
  | zero =>
    intro l hl used sel arch
    have hnil : l = [] := List.eq_nil_of_length_eq_zero (Nat.le_zero.mp hl)
    subst hnil
    simp [scanLoop]
  | succ n ihn =>
    intro l hl used sel arch
    cases l with
    | nil => simp [scanLoop]
    | cons msg older =>
      have holder : older.length ≤ n := by
        simp only [List.length_cons] at hl
        omega
      rw [scanLoop]
      split
      · have h := ihn older holder used sel (arch ++ (summarizeMessage msg).toList)
        simp only [List.length_cons]
        omega
      · split
        · have h := ihn older holder used sel (arch ++ (summarizeMessage msg).toList)
          simp only [List.length_cons]
          omega
        · split
          · dsimp only
            simp [scanLoop]
          · rename_i prevMsg older2 h1x h2x
            dsimp only
            split
            · have holder2 : older2.length ≤ n := by
                simp only [List.length_cons] at holder
                omega
              have h := ihn older2 holder2
                (used + estimateTokensFromMessage msg + estimateTokensFromMessage prevMsg)
                (sel ++ [msg] ++ [prevMsg]) arch
              simp only [List.length_append, List.length_cons, List.length_nil] at h ⊢
              omega
            · have h := ihn (prevMsg :: older2) holder
                (used + estimateTokensFromMessage msg) (sel ++ [msg]) arch
              simp only [List.length_append, List.length_cons, List.length_nil] at h ⊢
              omega

lemma repairAux_length (prev : Msg) (l : List Msg) : (repairAux prev l).length ≤ l.length := by
  induction l generalizing prev with
  | nil => simp [repairAux]
  | cons m rest ih =>
    rw [repairAux]
    split
    · dsimp only
      split
      · have := ih prev
        simp only [List.length_cons]
        omega
      · have := ih (stripToolResults m)
        simp only [List.length_cons]
        omega
    · have := ih m
      simp only [List.length_cons]
      omega

theorem pruneMessages_first_message_retention (firstMessage : Msg) (rest : List Msg)
    (maxMessages maxTokens : Nat) :
    (maxTokens < estimateTokensFromMessage firstMessage →
      pruneMessages (firstMessage :: rest) maxMessages maxTokens = ([firstMessage], [])) ∧
    (estimateTokensFromMessage firstMessage ≤ maxTokens →
      (firstMessage :: rest).length ≤ maxMessages →
      ((pruneMessages (firstMessage :: rest) maxMessages maxTokens).1).head? = some firstMessage) := by
  constructor
  · intro h
    simp only [pruneMessages]
    rw [if_pos h]
  · intro hbud hlen
    simp only [pruneMessages, List.drop_succ_cons, List.drop_zero]
    rw [if_neg (by omega : ¬ maxTokens < estimateTokensFromMessage firstMessage)]
    have hscan := scanLoop_fst_length maxMessages maxTokens rest.reverse.length rest.reverse
      le_rfl (estimateTokensFromMessage firstMessage) [] []
    simp only [List.length_nil, List.length_reverse, Nat.zero_add] at hscan
    simp only [List.length_cons] at hlen
    set S := scanLoop maxMessages maxTokens rest.reverse
      (estimateTokensFromMessage firstMessage) [] [] with hS
    have hlen0 : ¬ (maxMessages < (firstMessage :: S.1.reverse).length) := by
      simp only [List.length_cons, List.length_reverse]
      omega
    rw [if_neg hlen0]
    have hrep : ¬ (maxMessages < (repairPass (firstMessage :: S.1.reverse)).length) := by
      rw [repairPass]
      have h2 := repairAux_length firstMessage S.1.reverse
      simp only [List.length_cons, List.length_reverse] at h2 ⊢
      omega
    rw [if_neg hrep, repairPass]
    rfl
/-- Witness for C2 at concrete inputs, exercising both clauses. -/
theorem pruneMessages_first_message_retention_witness :
    (0 < estimateTokensFromMessage exFirst ∧
      pruneMessages [exFirst] 50 0 = ([exFirst], [])) ∧
    (estimateTokensFromMessage exFirst ≤ MAX_PROMPT_TOKEN_BUDGET ∧
      ([exFirst, exToolUse, exToolResult] : List Msg).length ≤ 50 ∧
      ((pruneMessages [exFirst, exToolUse, exToolResult] 50 MAX_PROMPT_TOKEN_BUDGET).1).head?
        = some exFirst) :=
  ⟨⟨by decide,
      (pruneMessages_first_message_retention exFirst [] 50 0).1 (by decide)⟩,
    ⟨by decide, by decide,
      (pruneMessages_first_message_retention exFirst [exToolUse, exToolResult] 50
        MAX_PROMPT_TOKEN_BUDGET).2 (by decide) (by decide)⟩⟩

/-! ## Cache eviction (C5) -/

lemma foldl_mapDelete (es : List (String × FileContext)) (c : FileCache) :
    es.foldl (fun acc e => mapDelete acc e.1) c
      = c.filter (fun x => decide (∀ e ∈ es, ¬ x.1 = e.1)) := by
  induction es generalizing c with
  | nil =>
    rw [List.foldl_nil]
    symm
    apply List.filter_eq_self.mpr
    intro a _
    simp
  | cons a es ih =>
    simp only [List.foldl_cons]
    rw [ih, mapDelete, List.filter_filter]
    apply List.filter_congr
    intro x _
    simp only [List.forall_mem_cons, Bool.decide_and]
    rw [Bool.and_comm]

lemma filter_false_on_take_length (l : List (String × FileContext)) (k : Nat)
    (P : String × FileContext → Bool) (hP : ∀ t ∈ l.take k, P t = false) :
    (l.filter P).length ≤ l.length - k := by
  conv_lhs => rw [show l = l.take k ++ l.drop k from (List.take_append_drop k l).symm]
  rw [List.filter_append]
  have htake : (l.take k).filter P = [] := by
    apply List.filter_eq_nil_iff.mpr
    intro t ht
    simp [hP t ht]
  rw [htake, List.nil_append]
  calc ((l.drop k).filter P).length ≤ (l.drop k).length := List.length_filter_le _ _
    _ = l.length - k := List.length_drop k l

lemma filter_not_in_take_length (l : List (String × FileContext)) (k : Nat) :
    (l.filter (fun x => decide (∀ e ∈ l.take k, ¬ x.1 = e.1))).length ≤ l.length - k := by
  apply filter_false_on_take_length
  intro t ht
  simp only [decide_eq_false_iff_not, Classical.not_forall, not_not]
  exact ⟨t, ht, rfl⟩

lemma evict_length_le (cache : FileCache) (maxSize : Nat) :
    (evictOldCacheEntries cache maxSize).length ≤ maxSize := by
  unfold evictOldCacheEntries
  split
  · next h => exact h
  · next h =>
    dsimp only
    rw [foldl_mapDelete]
    have hperm : List.Perm (cache.mergeSort lastReadLE) cache := List.mergeSort_perm cache lastReadLE
    have hfperm := hperm.filter
      (fun x => decide (∀ e ∈ (cache.mergeSort lastReadLE).take (cache.length - maxSize),
        ¬ x.1 = e.1))
    rw [← hfperm.length_eq]
    have habs := filter_not_in_take_length (cache.mergeSort lastReadLE) (cache.length - maxSize)
    have hlen : (cache.mergeSort lastReadLE).length = cache.length := hperm.length_eq
    omega
lemma keys_nodup_inj {cache : FileCache} (h : (cache.map Prod.fst).Nodup)
    {a b : String × FileContext} (ha : a ∈ cache) (hb : b ∈ cache) (hk : a.1 = b.1) : a = b :=
  List.inj_on_of_nodup_map h ha hb hk

lemma evict_removes_oldest (cache : FileCache) (maxSize : Nat)
    (hnodup : (cache.map Prod.fst).Nodup) :
    ∀ e ∈ cache, e ∉ evictOldCacheEntries cache maxSize →
      ∀ e' ∈ evictOldCacheEntries cache maxSize, e.2.lastRead ≤ e'.2.lastRead := by
  intro e he hnot e' he'
  unfold evictOldCacheEntries at hnot he'
  by_cases hle : cache.length ≤ maxSize
  · rw [if_pos hle] at hnot
    exact absurd he hnot
  · rw [if_neg hle] at hnot he'
    dsimp only at hnot he'
    rw [foldl_mapDelete] at hnot he'
    have hperm : List.Perm (cache.mergeSort lastReadLE) cache :=
      List.mergeSort_perm cache lastReadLE
    have htrans : ∀ (a b c : String × FileContext),
        lastReadLE a b → lastReadLE b c → lastReadLE a c := by
      intro a b c
      simp only [lastReadLE, decide_eq_true_eq]
      omega
    have htotal : ∀ (a b : String × FileContext), lastReadLE a b || lastReadLE b a := by
      intro a b
      simp only [lastReadLE, Bool.or_eq_true, decide_eq_true_eq]
      omega
    have hsorted := List.sorted_mergeSort htrans htotal cache
    have hPe : ¬ (∀ t ∈ (cache.mergeSort lastReadLE).take (cache.length - maxSize),
        ¬ e.1 = t.1) := by
      intro hP
      apply hnot
      exact List.mem_filter.mpr ⟨he, by simpa using hP⟩
    push_neg at hPe
    obtain ⟨t, ht, hkey⟩ := hPe
    have htc : t ∈ cache := hperm.mem_iff.mp (List.mem_of_mem_take ht)
    have het : e = t := keys_nodup_inj hnodup he htc hkey
    have he'c : e' ∈ cache := (List.mem_filter.mp he').1
    have hPe' : ∀ u ∈ (cache.mergeSort lastReadLE).take (cache.length - maxSize),
        ¬ e'.1 = u.1 := by
      simpa using (List.mem_filter.mp he').2
    have he'sorted : e' ∈ (cache.mergeSort lastReadLE).take (cache.length - maxSize)
        ++ (cache.mergeSort lastReadLE).drop (cache.length - maxSize) := by
      rw [List.take_append_drop]
      exact hperm.mem_iff.mpr he'c
    rcases List.mem_append.mp he'sorted with h1 | h2
    · exact absurd rfl (hPe' e' h1)
    · have hpw := hsorted
      rw [← List.take_append_drop (cache.length - maxSize) (cache.mergeSort lastReadLE)] at hpw
      have hcross := (List.pairwise_append.mp hpw).2.2
      have hle' := hcross t ht e' h2
      rw [het]
      simpa [lastReadLE] using hle'
/-- C5: after every `read_file` or `write_file` context update the
open-file cache holds at most 15 entries, and eviction only removes
entries whose `lastRead` is no newer than that of every retained entry
(ties broken by the stable sort). -/
theorem cache_bound_and_lru_eviction :
    (∀ (openFiles : FileCache) (filePath result : String) (now : Nat),
        (trackRead openFiles filePath result now).length ≤ 15) ∧
    (∀ (openFiles : FileCache) (filePath content : String) (now : Nat),
        (trackWrite openFiles filePath content now).length ≤ 15) ∧
    (∀ (cache : FileCache) (maxSize : Nat), (cache.map Prod.fst).Nodup →
        ∀ e ∈ cache, e ∉ evictOldCacheEntries cache maxSize →
          ∀ e' ∈ evictOldCacheEntries cache maxSize, e.2.lastRead ≤ e'.2.lastRead) := by
  refine ⟨?_, ?_, evict_removes_oldest⟩
  · intro openFiles filePath result now
    unfold trackRead
    exact evict_length_le _ _
  · intro openFiles filePath content now
    unfold trackWrite
    split <;> exact evict_length_le _ _

/-- A cache entry with the given `lastRead` stamp. -/
def exFC (lr : Nat) : FileContext := ⟨"p", "c", [], lr, lr⟩

/-- A two-entry cache whose older entry (by `lastRead`) sits second. -/
def exCacheB : FileCache := [("a", exFC 5), ("b", exFC 3)]

/-- Witness for C5: evicting the two-entry cache down to one removes
the entry with the older `lastRead` and keeps the newer one. -/
theorem cache_bound_and_lru_eviction_witness :
    (trackRead [] "f" "c" 0).length ≤ 15 ∧
    (trackWrite [] "f" "c" 0).length ≤ 15 ∧
    ((exCacheB.map Prod.fst).Nodup ∧ ("b", exFC 3) ∈ exCacheB ∧
      ("b", exFC 3) ∉ evictOldCacheEntries exCacheB 1 ∧
      ("a", exFC 5) ∈ evictOldCacheEntries exCacheB 1 ∧
      ("b", exFC 3).2.lastRead ≤ ("a", exFC 5).2.lastRead) := by
  have hev : evictOldCacheEntries exCacheB 1 = [("a", exFC 5)] := by
    simp [evictOldCacheEntries, List.mergeSort, exCacheB, lastReadLE, exFC, mapDelete]
  refine ⟨cache_bound_and_lru_eviction.1 [] "f" "c" 0,
    cache_bound_and_lru_eviction.2.1 [] "f" "c" 0,
    by decide, by decide, ?_, ?_, ?_⟩
  · rw [hev]
    decide
  · rw [hev]
    decide
  · exact cache_bound_and_lru_eviction.2.2 exCacheB 1 (by decide) ("b", exFC 3) (by decide)
      (by rw [hev]; decide) ("a", exFC 5) (by rw [hev]; decide)
/-! ## Undo stacks, approval map, iteration counter (C6-C9) -/

lemma any_key_of_mapGet?_some {cache : FileCache} {key : String} {fc : FileContext}
    (h : mapGet? cache key = some fc) : cache.any (fun e => e.1 = key) = true := by
  unfold mapGet? at h
  rcases hf : cache.find? (fun e => decide (e.1 = key)) with _ | e
  · rw [hf] at h
    simp at h
  · rw [List.any_eq_true]
    have hpe := List.find?_some hf
    exact ⟨e, List.mem_of_find?_eq_some hf, hpe⟩

lemma mapGet?_mapSet_self (cache : FileCache) (key : String) (v : FileContext) :
    mapGet? (mapSet cache key v) key = some v := by
  unfold mapSet
  split
  · next hany =>
    unfold mapGet?
    rw [List.find?_map]
    have hcomp : ((fun e : String × FileContext => decide (e.1 = key)) ∘
        (fun e : String × FileContext => if e.1 = key then (key, v) else e))
        = fun e : String × FileContext => decide (e.1 = key) := by
      funext e
      by_cases hk : e.1 = key
      · simp [hk]
      · simp [hk]
    rw [hcomp]
    rcases hf : cache.find? (fun e => decide (e.1 = key)) with _ | e
    · exfalso
      rw [List.find?_eq_none] at hf
      rw [List.any_eq_true] at hany
      obtain ⟨x, hx, hkx⟩ := hany
      exact absurd hkx (by simpa using hf x hx)
    · have hpe := List.find?_some hf
      simp only [decide_eq_true_eq] at hpe
      rw [hf]
      simp [hpe]
  · next hany =>
    unfold mapGet?
    rw [List.find?_append]
    have hnone : cache.find? (fun e => decide (e.1 = key)) = none := by
      rw [List.find?_eq_none]
      intro x hx
      simp only [decide_eq_true_eq]
      intro hxk
      exact hany (List.any_eq_true.mpr ⟨x, hx, by simpa using hxk⟩)
    rw [hnone]
    simp

lemma mapSet_length_of_mem {cache : FileCache} {key : String} (v : FileContext)
    (h : cache.any (fun e => e.1 = key) = true) :
    (mapSet cache key v).length = cache.length := by
  unfold mapSet
  rw [if_pos h, List.length_map]

lemma mapSet_length_of_not_mem {cache : FileCache} {key : String} (v : FileContext)
    (h : ¬ cache.any (fun e => e.1 = key) = true) :
    (mapSet cache key v).length = cache.length + 1 := by
  unfold mapSet
  rw [if_neg h, List.length_append, List.length_cons, List.length_nil]

lemma evict_eq_of_le {cache : FileCache} {m : Nat} (h : cache.length ≤ m) :
    evictOldCacheEntries cache m = cache := by
  unfold evictOldCacheEntries
  rw [if_pos h]

lemma find?_eq_none_of_mapGet?_none {cache : FileCache} {key : String}
    (h : mapGet? cache key = none) :
    cache.find? (fun e => decide (e.1 = key)) = none := by
  unfold mapGet? at h
  rcases hf : cache.find? (fun e => decide (e.1 = key)) with _ | e
  · exact hf
  · rw [hf] at h
    simp at h

lemma trackWrite_existing {cache : FileCache} {filePath : String} {fc : FileContext}
    (hget : mapGet? cache filePath = some fc) (hc : fc.content ≠ "")
    (hlen : cache.length ≤ 15) (content : String) (now : Nat) :
    mapGet? (trackWrite cache filePath content now) filePath
      = some { fc with
          content := content, lastRead := now, lastModified := now
          previousVersions :=
            if 10 < (fc.previousVersions ++ [fc.content]).length then
              (fc.previousVersions ++ [fc.content]).tail
            else fc.previousVersions ++ [fc.content] } := by
  unfold trackWrite
  rw [hget]
  dsimp only
  rw [if_pos hc]
  rw [evict_eq_of_le (by rw [mapSet_length_of_mem _ (any_key_of_mapGet?_some hget)]; exact hlen)]
  rw [mapGet?_mapSet_self]

lemma trackWrite_fresh {cache : FileCache} {filePath : String}
    (hget : mapGet? cache filePath = none) (hlen : cache.length ≤ 14)
    (content : String) (now : Nat) :
    mapGet? (trackWrite cache filePath content now) filePath
      = some ⟨filePath, content, [], now, now⟩ := by
  unfold trackWrite
  rw [hget]
  dsimp only
  have hany : ¬ cache.any (fun e => e.1 = filePath) = true := by
    intro hany
    rw [List.any_eq_true] at hany
    obtain ⟨x, hx, hkx⟩ := hany
    have := find?_eq_none_of_mapGet?_none hget
    rw [List.find?_eq_none] at this
    exact absurd hkx (this x hx)
  rw [evict_eq_of_le (by rw [mapSet_length_of_not_mem _ hany]; omega)]
  rw [mapGet?_mapSet_self]
lemma trackWrite_length_le (cache : FileCache) (filePath content : String) (now : Nat) :
    (trackWrite cache filePath content now).length ≤ 15 := by
  unfold trackWrite
  split <;> exact evict_length_le _ _

/-- An existing entry whose cached content is empty: a write does not
record the empty content on the undo stack (`if (existing.content)` is
JS-falsy for `""`). -/
def exEmptyContentCache : FileCache := [("f", ⟨"f", "", [], 0, 0⟩)]

/-- C6 counterexample: the claim says the current content is pushed on
the undo stack before every overwrite of an existing entry; with cached
content `""` nothing is pushed. -/
theorem trackWrite_empty_content_not_pushed_cex :
    (mapGet? (trackWrite exEmptyContentCache "f" "new" 5) "f").map FileContext.previousVersions
      = some [] ∧
    ¬ ((mapGet? (trackWrite exEmptyContentCache "f" "new" 5) "f").map
        FileContext.previousVersions = some [""]) := by
  decide

/-- C6 (amended): a write over an existing entry pushes the current
content onto the undo stack only when that content is non-empty (cap 10
via dropping the oldest); a write to an uncached path creates a fresh
entry with an empty undo stack; and write–write–undo restores the first
written content exactly. -/
theorem trackWrite_undo_stack_behavior :
    (∀ (cache : FileCache) (filePath : String) (fc : FileContext) (content : String) (now : Nat),
        mapGet? cache filePath = some fc → fc.content ≠ "" → cache.length ≤ 15 →
        mapGet? (trackWrite cache filePath content now) filePath
          = some { fc with
              content := content, lastRead := now, lastModified := now
              previousVersions :=
                if 10 < (fc.previousVersions ++ [fc.content]).length then
                  (fc.previousVersions ++ [fc.content]).tail
                else fc.previousVersions ++ [fc.content] }) ∧
    (∀ (cache : FileCache) (filePath content : String) (now : Nat),
        mapGet? cache filePath = none → cache.length ≤ 14 →
        mapGet? (trackWrite cache filePath content now) filePath
          = some ⟨filePath, content, [], now, now⟩) ∧
    (∀ (cache : FileCache) (filePath c1 c2 : String) (t1 t2 : Nat)
        (recentChanges : List (String × Nat)),
        mapGet? cache filePath = none → cache.length ≤ 14 → c1 ≠ "" →
        (undoLastChange (trackWrite (trackWrite cache filePath c1 t1) filePath c2 t2)
            recentChanges (some filePath)).1.success = true ∧
        (undoLastChange (trackWrite (trackWrite cache filePath c1 t1) filePath c2 t2)
            recentChanges (some filePath)).2.2 = some (filePath, c1) ∧
        mapGet? ((undoLastChange (trackWrite (trackWrite cache filePath c1 t1) filePath c2 t2)
            recentChanges (some filePath)).2.1) filePath
          = some ⟨filePath, c1, [], t2, t2⟩) := by
  refine ⟨fun cache fp fc content now hget hc hlen =>
      trackWrite_existing hget hc hlen content now,
    fun cache fp content now hget hlen => trackWrite_fresh hget hlen content now, ?_⟩
  intro cache filePath c1 c2 t1 t2 recentChanges hget hlen hc1
  have hs1 : mapGet? (trackWrite cache filePath c1 t1) filePath
      = some ⟨filePath, c1, [], t1, t1⟩ := trackWrite_fresh hget hlen c1 t1
  have hs1len : (trackWrite cache filePath c1 t1).length ≤ 15 :=
    trackWrite_length_le cache filePath c1 t1
  have hs2 := trackWrite_existing hs1 (by simpa using hc1) hs1len c2 t2
  simp only [List.nil_append, List.length_cons, List.length_nil] at hs2
  rw [show (if 10 < 0 + 1 then ([c1] : List String).tail else [c1]) = [c1] from by norm_num] at hs2
  unfold undoLastChange
  dsimp only
  rw [hs2]
  simp [mapGet?_mapSet_self]
/-- A one-entry cache with non-empty cached content. -/
def exFullCache : FileCache := [("f", ⟨"f", "x", [], 0, 0⟩)]

/-- Witness for C6, exercising all three clauses at concrete inputs. -/
theorem trackWrite_undo_stack_behavior_witness :
    (mapGet? exFullCache "f" = some ⟨"f", "x", [], 0, 0⟩ ∧
      ("x" : String) ≠ "" ∧ exFullCache.length ≤ 15 ∧
      mapGet? (trackWrite exFullCache "f" "new" 5) "f"
        = some { (⟨"f", "x", [], 0, 0⟩ : FileContext) with
            content := "new", lastRead := 5, lastModified := 5
            previousVersions :=
              if 10 < ((⟨"f", "x", [], 0, 0⟩ : FileContext).previousVersions
                  ++ [(⟨"f", "x", [], 0, 0⟩ : FileContext).content]).length then
                ((⟨"f", "x", [], 0, 0⟩ : FileContext).previousVersions
                  ++ [(⟨"f", "x", [], 0, 0⟩ : FileContext).content]).tail
              else (⟨"f", "x", [], 0, 0⟩ : FileContext).previousVersions
                  ++ [(⟨"f", "x", [], 0, 0⟩ : FileContext).content] }) ∧
    (mapGet? ([] : FileCache) "g" = none ∧ ([] : FileCache).length ≤ 14 ∧
      mapGet? (trackWrite [] "g" "c0" 3) "g" = some ⟨"g", "c0", [], 3, 3⟩) ∧
    (mapGet? ([] : FileCache) "h" = none ∧ ([] : FileCache).length ≤ 14 ∧
      ("c1" : String) ≠ "" ∧
      (undoLastChange (trackWrite (trackWrite [] "h" "c1" 1) "h" "c2" 2) []
        (some "h")).1.success = true ∧
      (undoLastChange (trackWrite (trackWrite [] "h" "c1" 1) "h" "c2" 2) []
        (some "h")).2.2 = some ("h", "c1") ∧
      mapGet? ((undoLastChange (trackWrite (trackWrite [] "h" "c1" 1) "h" "c2" 2) []
        (some "h")).2.1) "h" = some ⟨"h", "c1", [], 2, 2⟩) :=
  ⟨⟨by decide, by decide, by decide,
      trackWrite_undo_stack_behavior.1 exFullCache "f" ⟨"f", "x", [], 0, 0⟩ "new" 5
        (by decide) (by decide) (by decide)⟩,
    ⟨by decide, by decide,
      trackWrite_undo_stack_behavior.2.1 [] "g" "c0" 3 (by decide) (by decide)⟩,
    ⟨by decide, by decide, by decide,
      (trackWrite_undo_stack_behavior.2.2 [] "h" "c1" "c2" 1 2 []
        (by decide) (by decide) (by decide)).1,
      (trackWrite_undo_stack_behavior.2.2 [] "h" "c1" "c2" 1 2 []
        (by decide) (by decide) (by decide)).2.1,
      (trackWrite_undo_stack_behavior.2.2 [] "h" "c1" "c2" 1 2 []
        (by decide) (by decide) (by decide)).2.2⟩⟩

/-- C7: `undoLastChange` with no path targets the most recent recorded
change; every failure (no recent changes, no cache entry, empty undo
stack) is a returned `{success := false}` record, never an exception
(the function is total); success pops the top of the LIFO stack, writes
it to disk, and re-caches it without pushing a new undo entry. -/
theorem undoLastChange_spec :
    (∀ (openFiles : FileCache) (recentChanges : List (String × Nat)) (p : String) (t : Nat),
        undoLastChange openFiles (recentChanges ++ [(p, t)]) none
          = undoLastChange openFiles (recentChanges ++ [(p, t)]) (some p)) ∧
    (∀ openFiles : FileCache, undoLastChange openFiles [] none
        = (⟨false, "No recent changes to undo", none⟩, openFiles, none)) ∧
    (∀ (openFiles : FileCache) (recentChanges : List (String × Nat)) (p : String),
        mapGet? openFiles p = none →
        undoLastChange openFiles recentChanges (some p)
          = (⟨false, "No previous version available for " ++ p, none⟩, openFiles, none)) ∧
    (∀ (openFiles : FileCache) (recentChanges : List (String × Nat)) (p : String)
        (fc : FileContext), mapGet? openFiles p = some fc → fc.previousVersions = [] →
        undoLastChange openFiles recentChanges (some p)
          = (⟨false, "No previous version available for " ++ p, none⟩, openFiles, none)) ∧
    (∀ (openFiles : FileCache) (recentChanges : List (String × Nat)) (p : String)
        (fc : FileContext) (pv : List String) (v : String),
        mapGet? openFiles p = some fc → fc.previousVersions = pv ++ [v] →
        undoLastChange openFiles recentChanges (some p)
          = (⟨true, "Reverted " ++ p ++ " to previous version", some p⟩,
             mapSet openFiles p { fc with previousVersions := pv, content := v },
             some (p, v))) := by
  refine ⟨?_, ?_, ?_, ?_, ?_⟩
  · intro openFiles recentChanges p t
    simp [undoLastChange, List.getLast?_concat]
  · intro openFiles
    rfl
  · intro openFiles recentChanges p hget
    unfold undoLastChange
    dsimp only
    rw [hget]
  · intro openFiles recentChanges p fc hget hpv
    unfold undoLastChange
    dsimp only
    rw [hget]
    dsimp only
    rw [hpv]
    rfl
  · intro openFiles recentChanges p fc pv v hget hpv
    unfold undoLastChange
    dsimp only
    rw [hget]
    dsimp only
    rw [hpv]
    simp [List.getLast?_concat, List.dropLast_concat]

/-- Witness for C7, exercising all five clauses at concrete inputs. -/
theorem undoLastChange_spec_witness :
    (undoLastChange exFullCache [("f", 1)] none = undoLastChange exFullCache [("f", 1)] (some "f")) ∧
    (undoLastChange exFullCache [] none
        = (⟨false, "No recent changes to undo", none⟩, exFullCache, none)) ∧
    (mapGet? exFullCache "zz" = none ∧
      undoLastChange exFullCache [] (some "zz")
        = (⟨false, "No previous version available for zz", none⟩, exFullCache, none)) ∧
    (mapGet? exFullCache "f" = some ⟨"f", "x", [], 0, 0⟩ ∧
      (⟨"f", "x", [], 0, 0⟩ : FileContext).previousVersions = [] ∧
      undoLastChange exFullCache [] (some "f")
        = (⟨false, "No previous version available for f", none⟩, exFullCache, none)) ∧
    (mapGet? [("u", ⟨"u", "new", ["old"], 7, 7⟩)] "u" = some ⟨"u", "new", ["old"], 7, 7⟩ ∧
      (⟨"u", "new", ["old"], 7, 7⟩ : FileContext).previousVersions = [] ++ ["old"] ∧
      undoLastChange [("u", ⟨"u", "new", ["old"], 7, 7⟩)] [] (some "u")
        = (⟨true, "Reverted u to previous version", some "u"⟩,
           mapSet [("u", ⟨"u", "new", ["old"], 7, 7⟩)] "u"
             { (⟨"u", "new", ["old"], 7, 7⟩ : FileContext) with
                previousVersions := [], content := "old" },
           some ("u", "old"))) :=
  ⟨undoLastChange_spec.1 exFullCache [] "f" 1,
    undoLastChange_spec.2.1 exFullCache,
    ⟨by decide, undoLastChange_spec.2.2.1 exFullCache [] "zz" (by decide)⟩,
    ⟨by decide, by decide,
      undoLastChange_spec.2.2.2.1 exFullCache [] "f" ⟨"f", "x", [], 0, 0⟩ (by decide) (by decide)⟩,
    ⟨by decide, by decide,
      undoLastChange_spec.2.2.2.2 [("u", ⟨"u", "new", ["old"], 7, 7⟩)] [] "u"
        ⟨"u", "new", ["old"], 7, 7⟩ [] "old" (by decide) (by decide)⟩⟩
lemma reject_eq_resolve : rejectPendingCommand = resolvePendingCommand := rfl

lemma find?_key_filter_ne (l : PendingCommands) (toolUseId : String) :
    (l.filter (fun e => ¬ e.1 = toolUseId)).find? (fun e => e.1 = toolUseId) = none := by
  rw [List.find?_eq_none]
  intro x hx
  rw [List.mem_filter] at hx
  simpa using hx.2

lemma resolvePendingCommand_snd_find? (pendingCommands : PendingCommands) (toolUseId : String) :
    ((resolvePendingCommand pendingCommands toolUseId).2).find?
      (fun e => decide (e.1 = toolUseId)) = none := by
  unfold resolvePendingCommand
  rcases hf : pendingCommands.find? (fun e => decide (e.1 = toolUseId)) with _ | e
  · rw [hf]
    exact hf
  · rw [hf]
    exact find?_key_filter_ne pendingCommands toolUseId

lemma resolve_of_find?_none {m1 : PendingCommands} {toolUseId : String}
    (h : m1.find? (fun e => decide (e.1 = toolUseId)) = none) :
    resolvePendingCommand m1 toolUseId = (false, m1) := by
  unfold resolvePendingCommand
  rw [h]

/-- C8: registration succeeds exactly once per id (a duplicate
registration throws); the first resolve or reject on a registered id
returns `true` and removes the entry; any second delivery returns
`false` and leaves the map untouched. -/
theorem pending_command_at_most_once :
    (∀ (pendingCommands : PendingCommands) (toolUseId : String) (approval : CommandApproval),
        ¬ toolUseId = "" → ¬ pendingCommands.any (fun e => e.1 = toolUseId) = true →
        waitForCommandCompletion pendingCommands toolUseId approval
          = .ok (pendingCommands ++ [(toolUseId, approval)])) ∧
    (∀ (pendingCommands : PendingCommands) (toolUseId : String) (approval : CommandApproval),
        ¬ toolUseId = "" → pendingCommands.any (fun e => e.1 = toolUseId) = true →
        waitForCommandCompletion pendingCommands toolUseId approval
          = .error ("Command approval already pending for " ++ toolUseId)) ∧
    (∀ (pendingCommands : PendingCommands) (toolUseId : String),
        pendingCommands.any (fun e => e.1 = toolUseId) = true →
        (resolvePendingCommand pendingCommands toolUseId).1 = true ∧
        (rejectPendingCommand pendingCommands toolUseId).1 = true ∧
        ¬ ((resolvePendingCommand pendingCommands toolUseId).2.any
            (fun e => e.1 = toolUseId) = true)) ∧
    (∀ (pendingCommands : PendingCommands) (toolUseId : String),
        resolvePendingCommand (resolvePendingCommand pendingCommands toolUseId).2 toolUseId
          = (false, (resolvePendingCommand pendingCommands toolUseId).2) ∧
        rejectPendingCommand (resolvePendingCommand pendingCommands toolUseId).2 toolUseId
          = (false, (resolvePendingCommand pendingCommands toolUseId).2) ∧
        resolvePendingCommand (rejectPendingCommand pendingCommands toolUseId).2 toolUseId
          = (false, (rejectPendingCommand pendingCommands toolUseId).2) ∧
        rejectPendingCommand (rejectPendingCommand pendingCommands toolUseId).2 toolUseId
          = (false, (rejectPendingCommand pendingCommands toolUseId).2)) := by
  refine ⟨?_, ?_, ?_, ?_⟩
  · intro pendingCommands toolUseId approval h1 h2
    unfold waitForCommandCompletion
    rw [if_neg h1, if_neg h2]
  · intro pendingCommands toolUseId approval h1 h2
    unfold waitForCommandCompletion
    rw [if_neg h1, if_pos h2]
  · intro pendingCommands toolUseId hany
    rcases hf : pendingCommands.find? (fun e => decide (e.1 = toolUseId)) with _ | e
    · exfalso
      rw [List.find?_eq_none] at hf
      rw [List.any_eq_true] at hany
      obtain ⟨x, hx, hxk⟩ := hany
      exact absurd hxk (by simpa using hf x hx)
    · refine ⟨?_, ?_, ?_⟩
      · unfold resolvePendingCommand
        rw [hf]
      · rw [reject_eq_resolve]
        unfold resolvePendingCommand
        rw [hf]
      · intro habs
        rw [List.any_eq_true] at habs
        obtain ⟨x, hx, hxk⟩ := habs
        unfold resolvePendingCommand at hx
        rw [hf] at hx
        rw [List.mem_filter] at hx
        exact absurd hxk (by simpa using hx.2)
  · intro pendingCommands toolUseId
    refine ⟨?_, ?_, ?_, ?_⟩
    · exact resolve_of_find?_none (resolvePendingCommand_snd_find? pendingCommands toolUseId)
    · rw [reject_eq_resolve]
      exact resolve_of_find?_none (resolvePendingCommand_snd_find? pendingCommands toolUseId)
    · rw [reject_eq_resolve]
      exact resolve_of_find?_none (resolvePendingCommand_snd_find? pendingCommands toolUseId)
    · rw [reject_eq_resolve]
      exact resolve_of_find?_none (resolvePendingCommand_snd_find? pendingCommands toolUseId)

/-- A registered pending approval used by the C8 witness. -/
def exPending : PendingCommands := [("id1", ⟨"ls", none, none⟩)]

/-- Witness for C8 at concrete inputs. -/
theorem pending_command_at_most_once_witness :
    (¬ ("id1" : String) = "" ∧ ¬ (([] : PendingCommands).any (fun e => e.1 = "id1") = true) ∧
      waitForCommandCompletion [] "id1" ⟨"ls", none, none⟩ = .ok exPending) ∧
    (exPending.any (fun e => e.1 = "id1") = true ∧
      waitForCommandCompletion exPending "id1" ⟨"ls", none, none⟩
        = .error ("Command approval already pending for id1")) ∧
    ((resolvePendingCommand exPending "id1").1 = true ∧
      ¬ ((resolvePendingCommand exPending "id1").2.any (fun e => e.1 = "id1") = true)) ∧
    (resolvePendingCommand (resolvePendingCommand exPending "id1").2 "id1"
      = (false, (resolvePendingCommand exPending "id1").2)) :=
  ⟨⟨by decide, by decide,
      pending_command_at_most_once.1 [] "id1" ⟨"ls", none, none⟩ (by decide) (by decide)⟩,
    ⟨by decide,
      pending_command_at_most_once.2.1 exPending "id1" ⟨"ls", none, none⟩ (by decide) (by decide)⟩,
    ⟨(pending_command_at_most_once.2.2.1 exPending "id1" (by decide)).1,
      (pending_command_at_most_once.2.2.1 exPending "id1" (by decide)).2.2⟩,
    (pending_command_at_most_once.2.2.2 exPending "id1").1⟩

/-- C9: with tools requested and the counter at or above 25, a
"continue" answer from the gate makes `shouldContinue` return the
continue edge with the counter reset to exactly 0, and the next
`executeTools` pass then increments it to exactly 1.  The hard 200-step
`recursionLimit` is a separate graph-level constant that these
functions never read. -/
theorem iteration_reset_on_continue :
    (∀ (iterationCount toolUsesCount : Nat) (textBlocks : List String),
        ¬ toolUsesCount = 0 → 25 ≤ iterationCount →
        shouldContinue iterationCount toolUsesCount textBlocks true = ("continue", 0)) ∧
    (∀ (st : TrackState) (toolUses : List ToolCall) (now : Nat), ¬ toolUses = [] →
        (executeToolsTrack { st with iterationCount := 0 } toolUses now).iterationCount = 1) := by
  constructor
  · intro iterationCount toolUsesCount textBlocks h1 h2
    unfold shouldContinue
    rw [if_neg h1, if_pos h2]
    simp
  · intro st toolUses now h
    unfold executeToolsTrack
    rw [if_neg (by simpa using h)]

/-- Witness for C9 at concrete inputs. -/
theorem iteration_reset_on_continue_witness :
    (¬ (1 : Nat) = 0 ∧ 25 ≤ 25 ∧ shouldContinue 25 1 [] true = ("continue", 0)) ∧
    (¬ ([ToolCall.execCommand "ls" "" ""] : List ToolCall) = [] ∧
      (executeToolsTrack (⟨[], [], [], [], 0⟩ : TrackState)
        [ToolCall.execCommand "ls" "" ""] 0).iterationCount = 1) :=
  ⟨⟨by decide, by decide, iteration_reset_on_continue.1 25 1 [] (by decide) (by decide)⟩,
    ⟨by decide, by
      have h := iteration_reset_on_continue.2
        ⟨[], [], [], [], 0⟩ [ToolCall.execCommand "ls" "" ""] 0 (by decide)
      simpa using h⟩⟩
end MergeMaster
